import Mathlib

/-!
Shallow embedding of the request-sim load generator (blitz-serving/request-sim)
and verification of the frozen claims about it.

The embedding follows the Rust sources under src/:
- src/dataset.rs        (trace loaders: Dataset::load_mooncake_jsonl,
                         Dataset::load_burstgpt_csv, Dataset::load_azure_csv)
- src/requester.rs      (spawn_request_loop, spawn_request_loop_with_timestamp,
                         report_loop)
- src/token_sampler.rs  (TokenSampler::generate_block, TokenSampler::gen_string)
- src/lib.rs            (SpinRwLock)
- src/protocols/distserve_protocol.rs, src/protocols/vllm_protocol.rs
                        (parse_response)

Machine integers (u64) are modelled as Nat with explicit wrap-around where the
source can overflow; Rust panics are modelled as Option/Except None/error;
randomness (rand::thread_rng) is modelled by an explicit stream of draws; the
opaque tokenizers::Tokenizer is an explicit encode/decode pair.
-/

namespace RequestSim

/-! ## u64 arithmetic

The Rust sources do u64 arithmetic; in release mode additions and subtractions
wrap modulo 2^64.  Operands are always < 2^64. -/

def U64MOD : Nat := 2 ^ 64

/-- Wrapping u64 addition. -/
def add64 (a b : Nat) : Nat := (a + b) % U64MOD

/-- Wrapping u64 subtraction (for operands below 2^64). -/
def sub64 (a b : Nat) : Nat := (U64MOD + a - b) % U64MOD

/-- Wrapping u64 multiplication. -/
def mul64 (a b : Nat) : Nat := (a * b) % U64MOD

/-! ## Trace store (src/dataset.rs)

struct Dataset \x7b dataset_size, requests: Vec<(u64, u64)>, timestamps: Vec<u64>,
round_time: u64, next: AtomicUsize \x7d.  The atomic cursor is not part of the
loaded data and is omitted. -/

structure Dataset where
  dataset_size : Nat
  requests : List (Nat × Nat)
  timestamps : List Nat
  round_time : Nat
deriving Repr, DecidableEq

/-- Common tail of every loader:

  let round_time = timestamps.last().unwrap()
      + timestamps.last().unwrap() / (requests.len() as u64 - 1);

none models the Rust panics: last().unwrap() on an empty timestamps vector,
and u64 division by zero when requests.len() == 1 (len - 1 wraps for len 0,
so only len == 1 gives divisor 0). -/
def mkDataset (requests : List (Nat × Nat)) (timestamps : List Nat) : Option Dataset :=
  match timestamps.getLast? with
  | none => none
  | some last =>
    if sub64 requests.length 1 = 0 then none
    else some ⟨requests.length, requests, timestamps,
               add64 last (last / sub64 requests.length 1)⟩

/-- One line of a Mooncake JSONL trace (serde struct MooncakeRecord). -/
structure MooncakeRecord where
  timestamp : Nat
  input_length : Nat
  output_length : Nat
  hash_ids : List Nat
deriving Repr, DecidableEq

/-- The per-record request pair pushed by Dataset::load_mooncake_jsonl.
The source duplicates the loop body under `if prefill_only`; both copies share
the long-context branch:

  if !filter_long_context && record.input_length + record.output_length >= 4096
    \x7b requests.push((4095 - record.output_length, record.output_length)); \x7d
  else \x7b requests.push((record.input_length, <1 or record.output_length>)); \x7d -/
def mooncakeRow (prefill_only filter_long_context : Bool) (r : MooncakeRecord) : Nat × Nat :=
  if prefill_only then
    if filter_long_context = false ∧ 4096 ≤ add64 r.input_length r.output_length then
      (sub64 4095 r.output_length, r.output_length)
    else
      (r.input_length, 1)
  else
    if filter_long_context = false ∧ 4096 ≤ add64 r.input_length r.output_length then
      (sub64 4095 r.output_length, r.output_length)
    else
      (r.input_length, r.output_length)

/-- Dataset::load_mooncake_jsonl.  The file is modelled as its parsed records;
`requests.shuffle(&mut rand::thread_rng())` is modelled by an explicit
permutation function shuffleFn applied when shuffle is set. -/
def load_mooncake_jsonl (records : List MooncakeRecord)
    (shuffle prefill_only filter_long_context : Bool)
    (shuffleFn : List (Nat × Nat) → List (Nat × Nat)) : Option Dataset :=
  let requests := records.map (mooncakeRow prefill_only filter_long_context)
  let timestamps := records.map (fun r => r.timestamp)
  let requests := if shuffle then shuffleFn requests else requests
  mkDataset requests timestamps

/-- One data row of a BurstGPT CSV trace (after the header): parts[0] is the
timestamp (parsed f64, cast to u64), parts[2] the input length, parts[3] the
output length, parts[5] the log type. -/
structure BurstRow where
  timestamp : Nat
  input_length : Nat
  output_length : Nat
  log_type : String
deriving Repr, DecidableEq

/-- The (input_length, output_length) pair computed by Dataset::load_burstgpt_csv
for one row:

  let mut input_length = parts[2].parse().unwrap();
  let output_length = if prefill_only \x7b 1 \x7d else \x7b parts[3].parse().unwrap() \x7d;
  if !filter_long_context && input_length + output_length >= 4096
    \x7b input_length = 4095 - output_length; \x7d -/
def burstPair (prefill_only filter_long_context : Bool) (r : BurstRow) : Nat × Nat :=
  let output_length := if prefill_only then 1 else r.output_length
  let input_length :=
    if filter_long_context = false ∧ 4096 ≤ add64 r.input_length output_length then
      sub64 4095 output_length
    else r.input_length
  (input_length, output_length)

/-- Row retention test of Dataset::load_burstgpt_csv:
  if log_type == "Conversation log" || log_type == "API log" -/
def burstKeep (r : BurstRow) : Bool :=
  r.log_type == "Conversation log" || r.log_type == "API log"

/-- Dataset::load_burstgpt_csv.  Timestamps of retained rows are normalized:
  *timestamp = (*timestamp - base_timestamp) * 1000
with base_timestamp = timestamps[0] (a panic, modelled none, on no retained
rows). -/
def load_burstgpt_csv (rows : List BurstRow)
    (shuffle prefill_only filter_long_context : Bool)
    (shuffleFn : List (Nat × Nat) → List (Nat × Nat)) : Option Dataset :=
  let kept := rows.filter burstKeep
  let requests := kept.map (burstPair prefill_only filter_long_context)
  match (kept.map (fun r => r.timestamp)).head? with
  | none => none
  | some base =>
    let timestamps := (kept.map (fun r => r.timestamp)).map (fun t => mul64 (sub64 t base) 1000)
    let requests := if shuffle then shuffleFn requests else requests
    mkDataset requests timestamps

/-- One data row of an Azure CSV trace: parts[0] an ISO-8601 timestamp
(modelled as signed milliseconds since some epoch, as produced by
NaiveDateTime), parts[1] the input length, parts[2] the output length. -/
structure AzureRow where
  timestamp_ms : Int
  input_length : Nat
  output_length : Nat
deriving Repr, DecidableEq

/-- `elapsed.num_milliseconds() as u64`: an i64 cast to u64 (two's complement
reinterpretation, modelled as mod 2^64). -/
def intToU64 (z : Int) : Nat := (z % (2 ^ 64 : Int)).toNat

/-- The (input_length, output_length) pair computed by Dataset::load_azure_csv
for one row; same shape as the BurstGPT one. -/
def azurePair (prefill_only filter_long_context : Bool) (r : AzureRow) : Nat × Nat :=
  let output_length := if prefill_only then 1 else r.output_length
  let input_length :=
    if filter_long_context = false ∧ 4096 ≤ add64 r.input_length output_length then
      sub64 4095 output_length
    else r.input_length
  (input_length, output_length)

/-- Dataset::load_azure_csv.  initial_timestamp is the first row's timestamp;
each stored timestamp is the elapsed milliseconds from it. -/
def load_azure_csv (rows : List AzureRow)
    (shuffle prefill_only filter_long_context : Bool)
    (shuffleFn : List (Nat × Nat) → List (Nat × Nat)) : Option Dataset :=
  match rows with
  | [] => none
  | first :: _ =>
    let timestamps := rows.map (fun r => intToU64 (r.timestamp_ms - first.timestamp_ms))
    let requests := rows.map (azurePair prefill_only filter_long_context)
    let requests := if shuffle then shuffleFn requests else requests
    mkDataset requests timestamps

/-- The long-context rewrite as fixed by the code for all three loaders: an
entry whose (wrapped) input+output sum reaches 4096 is rewritten to
(4095 - output, output); shorter entries are untouched. -/
def rewrite_long_context (p : Nat × Nat) : Nat × Nat :=
  if 4096 ≤ add64 p.1 p.2 then (sub64 4095 p.2, p.2) else p

/-! ## Scheduler / dispatcher (src/requester.rs)

spawn_request_loop (synthetic mode) and spawn_request_loop_with_timestamp
(replay mode) both iterate the trace, spawn one request task per entry, and
stop early when the stop signal fires (modelled by the number stopAfter of
entries dispatched before the signal is observed).  Each request task posts
with timeout

  Duration::from_secs(180.max((output_length as f64 * 0.4) as u64))

The f64 arithmetic is modelled exactly (IEEE-754 binary64, round to nearest,
ties to even): the u64 is converted to f64 (rounding to 53 significant bits
when the value needs more), multiplied by the f64 literal 0.4 — whose exact
value is FL04_SIG * 2^-54, slightly above 2/5 — with one rounding of the
product to 53 significant bits, and the result is cast to u64 by truncation
toward zero (saturating; the product here never reaches 2^64, nor is it
negative, so no clamp fires).  All intermediate values are positive and
normal, so significand/scale pairs (value = M * 2^s / 2^54 at the product
stage) represent the doubles exactly. -/

/-- The 54-bit scaled significand of the f64 literal 0.4:
0.4_f64 = FL04_SIG * 2^-54 (note 5 * FL04_SIG = 2^55 + 2, so this exceeds
2/5 by 0.4 * 2^-54). -/
def FL04_SIG : Nat := 7205759403792794

/-- Bit length of a natural number, fuel-bounded structural recursion (all
numbers in this development are far below 2^128). -/
def bitLenAux : Nat → Nat → Nat
  | 0, _ => 0
  | fuel + 1, n => if n = 0 then 0 else bitLenAux fuel (n / 2) + 1

/-- Bit length: for n ≥ 1, the unique b with 2^(b-1) ≤ n < 2^b. -/
def bitLen (n : Nat) : Nat := bitLenAux 128 n

/-- Round P / 2^k to the nearest integer, ties to even (IEEE-754 default
rounding; used with k ≥ 1). -/
def rne (P k : Nat) : Nat :=
  if P % 2 ^ k < 2 ^ k / 2 then P / 2 ^ k
  else if 2 ^ k / 2 < P % 2 ^ k then P / 2 ^ k + 1
  else if P / 2 ^ k % 2 = 0 then P / 2 ^ k else P / 2 ^ k + 1

/-- `o as f64` for a u64 o: the pair (M, s) with value M * 2^s; exact below
2^53, otherwise rounded to 53 significant bits. -/
def f64OfU64 (o : Nat) : Nat × Nat :=
  if o < 2 ^ 53 then (o, 0)
  else (rne o (bitLen o - 53), bitLen o - 53)

/-- Value of (M * 2^s) * 0.4_f64 rounded once to 53 significant bits, then
truncated toward zero: the exact product is (M * FL04_SIG) * 2^(s-54); when
it already fits in 53 bits it is exact, otherwise its significand is rounded
to nearest-even.  Truncation of the positive value X * 2^(s+k-54) is the
floor X * 2^(s+k) / 2^54 in Nat arithmetic. -/
def f64ProdVal (M s : Nat) : Nat :=
  if M * FL04_SIG < 2 ^ 53 then M * FL04_SIG * 2 ^ s / 2 ^ 54
  else rne (M * FL04_SIG) (bitLen (M * FL04_SIG) - 53)
         * 2 ^ (s + (bitLen (M * FL04_SIG) - 53)) / 2 ^ 54

/-- `(o as f64 * 0.4) as u64` (the Rust cast saturates at u64::MAX). -/
def f64Mul04AsU64 (o : Nat) : Nat :=
  min (f64ProdVal (f64OfU64 o).1 (f64OfU64 o).2) (2 ^ 64 - 1)

/-- The per-request HTTP timeout, in seconds:
180.max((output_length as f64 * 0.4) as u64). -/
def timeout_secs (output_length : Nat) : Nat := max 180 (f64Mul04AsU64 output_length)

/-- One trace entry as seen by the dispatch loops. -/
structure TraceEntry where
  timestamp : Nat
  input_length : Nat
  output_length : Nat
deriving Repr, DecidableEq

/-- A request task spawned by a dispatch loop, with the timeout it was given. -/
structure DispatchedRequest where
  index : Nat
  input_length : Nat
  output_length : Nat
  timeout : Nat
deriving Repr, DecidableEq

/-- Requests dispatched by spawn_request_loop (synthetic mode) when the stop
signal is observed after stopAfter iterations. -/
def dispatch_synth (trace : List TraceEntry) (stopAfter : Nat) : List DispatchedRequest :=
  (trace.take stopAfter).enum.map fun ie =>
    ⟨ie.1, ie.2.input_length, ie.2.output_length, timeout_secs ie.2.output_length⟩

/-- Requests dispatched by spawn_request_loop_with_timestamp (replay mode);
the timeout expression is the same. -/
def dispatch_replay (trace : List TraceEntry) (stopAfter : Nat) : List DispatchedRequest :=
  (trace.take stopAfter).enum.map fun ie =>
    ⟨ie.1, ie.2.input_length, ie.2.output_length, timeout_secs ie.2.output_length⟩

/-- Outcome of one request task: request_with_timeout returned Ok(response),
or a transport error / timeout. -/
inductive ReqOutcome where
  | ok
  | failed
deriving Repr, DecidableEq

/-- Final value of the static RETURNCODE: each failed task stores -1
(RETURNCODE.store(-1)); successful tasks never touch it. -/
def final_return_code (outcomes : List ReqOutcome) : Int :=
  outcomes.foldl (fun acc o => match o with | ReqOutcome.failed => -1 | ReqOutcome.ok => acc) 0

/-- Result of the join handle returned by spawn_request_loop_with_timestamp:
after wait_all, the handle reads RETURNCODE a and returns
if a == 0 \x7b Ok(()) \x7d else \x7b Err(a) \x7d. -/
def replay_join_result (outcomes : List ReqOutcome) : Except Int Unit :=
  let a := final_return_code outcomes
  if a = 0 then Except.ok () else Except.error a

/-- Result of the join handle returned by spawn_request_loop (synthetic mode):
the handle body is `wait_all(rx).await; Ok(())` — there is no RETURNCODE in
this function, failed requests are only logged. -/
def synth_join_result (_outcomes : List ReqOutcome) : Except Int Unit :=
  Except.ok ()

/-! ## Metrics records and the reporter (src/requester.rs report_loop)

A metrics record is a BTreeMap<String, String>: modelled as an association
list kept sorted by key, built with btInsert (the BTreeMap insert). -/

/-- BTreeMap<String, String>::insert on the sorted-association-list model. -/
def btInsert (k v : String) : List (String × String) → List (String × String)
  | [] => [(k, v)]
  | (k2, v2) :: rest =>
    if k < k2 then (k, v) :: (k2, v2) :: rest
    else if k = k2 then (k, v) :: rest
    else (k2, v2) :: btInsert k v rest

/-- Keys of an association list are in strictly ascending order (the BTreeMap
iteration-order invariant). -/
def KeysSorted (m : List (String × String)) : Prop :=
  (m.map Prod.fst).Pairwise (fun a b => a < b)

/-- BTreeMap lookup on the association-list model. -/
def mr_lookup (m : List (String × String)) (k : String) : Option String :=
  (m.find? (fun kv => kv.1 == k)).map (fun kv => kv.2)

/-- serde_json string escaping (the characters that occur in metrics values:
quote, backslash, and the common control characters). -/
def jsonEscape (s : String) : String :=
  String.join (s.data.map fun c =>
    if c = Char.ofNat 34 then "\\\""
    else if c = Char.ofNat 92 then "\\\\"
    else if c = Char.ofNat 10 then "\\n"
    else if c = Char.ofNat 13 then "\\r"
    else if c = Char.ofNat 9 then "\\t"
    else String.singleton c)

/-- serde_json serialization of one key/value pair. -/
def serializeEntry (kv : String × String) : String :=
  "\"" ++ jsonEscape kv.1 ++ "\":\"" ++ jsonEscape kv.2 ++ "\""

/-- serde_json::to_string of a BTreeMap<String, String>: a one-line JSON
object whose members appear in map iteration order (ascending keys). -/
def serializeMR (m : List (String × String)) : String :=
  "\x7b" ++ String.intercalate "," (m.map serializeEntry) ++ "\x7d"

/-- The BufWriter over the output file: file holds flushed bytes, buf holds
buffered unflushed bytes. -/
structure WriterState where
  file : String
  buf : String
deriving Repr, DecidableEq

/-- One iteration of report_loop's while-let body:
  buf_writer.write_all(line.as_bytes()); buf_writer.write_all(b"\n");
  buf_writer.flush(); -/
def report_step (w : WriterState) (m : List (String × String)) : WriterState :=
  let buf2 := w.buf ++ serializeMR m ++ "\n"
  { file := w.file ++ buf2, buf := "" }

/-- report_loop: drains the channel (modelled by the list of records received
before the channel closed, in order) and terminates when it closes. -/
def report_loop (records : List (List (String × String))) : WriterState :=
  records.foldl report_step { file := "", buf := "" }

/-- The expected output-file contents: exactly one serialized record followed
by one newline per received record, in arrival order. -/
def reportFileContent : List (List (String × String)) → String
  | [] => ""
  | r :: rs => serializeMR r ++ "\n" ++ reportFileContent rs

/-! ## Protocol adapters: parse_response
(src/protocols/distserve_protocol.rs, src/protocols/vllm_protocol.rs)

An HTTP response is modelled by its status code and its header map; a header
value is `some v` when present and ASCII-decodable (HeaderValue::to_str Ok),
`none` when present but not decodable. -/

/-- An HTTP response as consumed by parse_response. -/
structure HttpResponse where
  status : Nat
  headers : List (String × Option String)
deriving Repr, DecidableEq

/-- response.headers().get(name): none when the header is absent. -/
def header_get (resp : HttpResponse) (name : String) : Option (Option String) :=
  (resp.headers.find? (fun h => h.1 == name)).map (fun h => h.2)

/-- StatusCode::is_success: 200 ≤ status < 300. -/
def is_success (status : Nat) : Bool := 200 ≤ status && status < 300

/-- headers().get(name).unwrap().to_str().unwrap().to_string(): panics (error)
when the header is absent or not decodable. -/
def require_header (resp : HttpResponse) (name : String) : Except Unit String :=
  match header_get resp name with
  | some (some v) => Except.ok v
  | _ => Except.error ()

/-- The (map key, header name) pairs read, in program order, by
DistserveProtocol::parse_response on a success status. -/
def distserve_header_keys : List (String × String) :=
  [("first_token_time", "x-first-token-time"),
   ("total_time", "x-total-time"),
   ("inference_time", "x-inference-time"),
   ("queue_time", "x-queue-time"),
   ("max_time_between_tokens", "x-max-time-between-tokens"),
   ("p70_time_between_tokens", "x-p70-time-between-tokens"),
   ("p90_time_between_tokens", "x-p90-time-between-tokens"),
   ("p99_time_between_tokens", "x-p99-time-between-tokens"),
   ("output_length", "x-output-length"),
   ("input_length", "x-input-length")]

/-- The (map key, header name) pairs read by VllmProtocol::parse_response. -/
def vllm_header_keys : List (String × String) :=
  [("first_token_time", "x-first-token-time"),
   ("inference_time", "x-inference-time"),
   ("max_time_between_tokens", "x-max-time-between-tokens")]

/-- Common shape of parse_response: insert "status" (status().as_str()), then
on a success status read each required header with unwrap (panic = error) and
insert it. -/
def parse_response_with (keys : List (String × String)) (resp : HttpResponse) :
    Except Unit (List (String × String)) :=
  let m := btInsert "status" (toString resp.status) []
  if is_success resp.status then
    keys.foldlM (fun m kv => do
      let v ← require_header resp kv.2
      pure (btInsert kv.1 v m)) m
  else Except.ok m

/-- DistserveProtocol::parse_response. -/
def parse_response_distserve (resp : HttpResponse) : Except Unit (List (String × String)) :=
  parse_response_with distserve_header_keys resp

/-- VllmProtocol::parse_response. -/
def parse_response_vllm (resp : HttpResponse) : Except Unit (List (String × String)) :=
  parse_response_with vllm_header_keys resp

/-! ## Token sampler (src/token_sampler.rs)

The tokenizers::Tokenizer is opaque to the program; it is modelled as an
arbitrary encode/decode pair.  rand::thread_rng is modelled by an explicit
stream of draws (draws k is the token vector drawn at iteration k). -/

/-- Opaque tokenizer capability. -/
structure Tokenizer where
  encode : String → List Nat
  decode : List Nat → String

/-- The splitter derived from tokenizer_config.json by resolve_splitter:
[pad] when a pad token exists, else [bos, eos]. -/
inductive Splitter where
  | pad (s : String)
  | bosEos (b e : String)
deriving Repr, DecidableEq

/-- splitter[0]. -/
def Splitter.one : Splitter → String
  | Splitter.pad s => s
  | Splitter.bosEos b _ => b

/-- The n == 2 result of generate_block:
  if splitter.len() == 2 \x7b format!("\x7b0\x7d\x7b1\x7d", ..) \x7d else \x7b splitter[0].repeat(2) \x7d -/
def Splitter.double : Splitter → String
  | Splitter.pad s => s ++ s
  | Splitter.bosEos b e => b ++ e

/-- The splitter affixing in the rejection loop:
  result.insert_str(0, &splitter[0]); result.push_str(&splitter[last]); -/
def Splitter.wrap : Splitter → String → String
  | Splitter.pad s, body => s ++ body ++ s
  | Splitter.bosEos b e, body => b ++ body ++ e

/-- One iteration body of generate_block's rejection loop, given the tokens
drawn this iteration: decode, re-encode, truncate to n-2, decode again, affix
the splitter. -/
def generate_attempt (tok : Tokenizer) (splitter : Splitter) (n : Nat) (tokens : List Nat) :
    String :=
  let decoded := tok.decode tokens
  let encoded := tok.encode decoded
  let ids := encoded.take (n - 2)
  let result := tok.decode ids
  splitter.wrap result

/-- The rejection loop of generate_block (`loop \x7b .. \x7d` in the source has no
iteration cap; fuel bounds the modelled unrolling, and none means the loop has
not terminated within fuel iterations).  k indexes the draw stream. -/
def generate_loop (tok : Tokenizer) (splitter : Splitter) (n : Nat)
    (draws : Nat → List Nat) : Nat → Nat → Option String
  | 0, _ => none
  | fuel + 1, k =>
    if (tok.encode (generate_attempt tok splitter n (draws k))).length = n
    then some (generate_attempt tok splitter n (draws k))
    else generate_loop tok splitter n draws fuel (k + 1)

/-- TokenSampler::generate_block. -/
def generate_block (tok : Tokenizer) (splitter : Splitter) (n : Nat)
    (draws : Nat → List Nat) (fuel : Nat) : Option String :=
  match n with
  | 0 => some ""
  | 1 => some splitter.one
  | 2 => some splitter.double
  | _ + 3 => generate_loop tok splitter n draws fuel 0

/-- The channels of a TokenSampler, as visible to gen_string: the primary
bounded channel (block-size blocks) and the ragged pools keyed by size
(populated by new() for sizes 1 .. block_size-1). -/
structure SamplerState where
  block_size : Nat
  primary : List String
  ragged : List (Nat × List String)
deriving Repr, DecidableEq

/-- ragged_block_cache.get(&n). -/
def ragged_get (m : List (Nat × List String)) (n : Nat) : Option (List String) :=
  (m.find? (fun p => p.1 == n)).map (fun p => p.2)

/-- TokenSampler::gen_string.  For n == block_size, recv() on the primary
channel (a miss only on disconnection, after which the code falls through).
Otherwise look up the ragged pool for n: on a pool hit return the cached
sample, on a pool miss generate inline; when no pool exists for n the code
panics ("No cache for block size \x7bn\x7d"), modelled as none. -/
def gen_string (st : SamplerState) (tok : Tokenizer) (splitter : Splitter)
    (draws : Nat → List Nat) (fuel : Nat) (n : Nat) : Option String :=
  match (if st.block_size = n then st.primary.head? else none) with
  | some sample => some sample
  | none =>
    match ragged_get st.ragged n with
    | some pool =>
      match pool.head? with
      | some sample => some sample
      | none => generate_block tok splitter n draws fuel
    | none => none

/-- Invariant established by TokenSampler::new and maintained by the
producers: every sample in the primary channel re-encodes to block_size
tokens, every sample in the ragged pool for size k re-encodes to k tokens,
and warmup created a ragged pool for every size 1 .. block_size-1. -/
def SamplerWF (st : SamplerState) (tok : Tokenizer) : Prop :=
  (∀ s ∈ st.primary, (tok.encode s).length = st.block_size) ∧
  (∀ p ∈ st.ragged, ∀ s ∈ p.2, (tok.encode s).length = p.1) ∧
  (∀ k < st.block_size, 1 ≤ k → (ragged_get st.ragged k).isSome = true)

/-! ## Writer-priority spin rwlock (src/lib.rs SpinRwLock)

The atomic usize packs a reader count (low bits), a writer-waiting bit and a
writer-active bit; it is modelled by the structure RwWord (the reader count
never approaches the waiter bit in any protocol-respecting execution).  Each
atomic CAS/swap/fetch of the source is one transition of RwStep; the spin and
backoff code between atomics has no shared effect and is elided.  Threads are
a multiset of phases:
- wantR:   inside read_lock, before the successful CAS(s, s+1)
- reading: read_lock returned, read_unlock not yet called
- wantW:   inside write_lock phase 1, before winning CAS(s, s | WAITER_BIT)
- waiterP: won the waiter bit, spinning for CAS(WAITER_BIT, WRITER_BIT)
- writing: write_lock returned, write_unlock not yet called -/

/-- The packed atomic word of SpinRwLock. -/
structure RwWord where
  readers : Nat
  waiter : Bool
  writer : Bool
deriving Repr, DecidableEq

/-- Phase of one client thread of the lock. -/
inductive ThreadPhase where
  | idle
  | wantR
  | reading
  | wantW
  | waiterP
  | writing
deriving Repr, DecidableEq

/-- A lock together with its client threads. -/
structure RwSys where
  word : RwWord
  threads : Multiset ThreadPhase

/-- One atomic step of some thread against the lock. -/
inductive RwStep : RwSys → RwSys → Prop where
  | startRead (w : RwWord) (rest : Multiset ThreadPhase) :
      RwStep ⟨w, ThreadPhase.idle ::ₘ rest⟩ ⟨w, ThreadPhase.wantR ::ₘ rest⟩
  | startWrite (w : RwWord) (rest : Multiset ThreadPhase) :
      RwStep ⟨w, ThreadPhase.idle ::ₘ rest⟩ ⟨w, ThreadPhase.wantW ::ₘ rest⟩
  | readAcquire (w : RwWord) (rest : Multiset ThreadPhase)
      (hwaiter : w.waiter = false) (hwriter : w.writer = false) :
      RwStep ⟨w, ThreadPhase.wantR ::ₘ rest⟩
             ⟨⟨w.readers + 1, false, false⟩, ThreadPhase.reading ::ₘ rest⟩
  | readRelease (w : RwWord) (rest : Multiset ThreadPhase) :
      RwStep ⟨w, ThreadPhase.reading ::ₘ rest⟩
             ⟨⟨w.readers - 1, w.waiter, w.writer⟩, ThreadPhase.idle ::ₘ rest⟩
  | waiterAcquire (w : RwWord) (rest : Multiset ThreadPhase)
      (hwaiter : w.waiter = false) :
      RwStep ⟨w, ThreadPhase.wantW ::ₘ rest⟩
             ⟨⟨w.readers, true, w.writer⟩, ThreadPhase.waiterP ::ₘ rest⟩
  | writeAcquire (rest : Multiset ThreadPhase) :
      RwStep ⟨⟨0, true, false⟩, ThreadPhase.waiterP ::ₘ rest⟩
             ⟨⟨0, false, true⟩, ThreadPhase.writing ::ₘ rest⟩
  | writeRelease (w : RwWord) (rest : Multiset ThreadPhase) :
      RwStep ⟨w, ThreadPhase.writing ::ₘ rest⟩
             ⟨⟨0, false, false⟩, ThreadPhase.idle ::ₘ rest⟩

/-- The lock as constructed by SpinRwLock::new (state 0) with n idle
threads. -/
def rwInit (n : Nat) : RwSys :=
  ⟨⟨0, false, false⟩, Multiset.replicate n ThreadPhase.idle⟩

/-- A system state reachable by some interleaving of lock operations. -/
def RwReachable (n : Nat) (sys : RwSys) : Prop :=
  Relation.ReflTransGen RwStep (rwInit n) sys

/-- The inductive invariant tying the packed word to the thread phases. -/
def RwInv (sys : RwSys) : Prop :=
  sys.word.readers = sys.threads.count ThreadPhase.reading ∧
  sys.threads.count ThreadPhase.writing = (if sys.word.writer then 1 else 0) ∧
  (sys.word.writer = true → sys.word.readers = 0)

/-! ## Concrete instances used to evaluate the model -/

/-- A concrete tokenizer on which encode and decode are mutually inverse
character maps: each character is one token. -/
def charTok : Tokenizer :=
  { encode := fun s => s.data.map Char.toNat
    decode := fun l => String.mk (l.map Char.ofNat) }

/-- A degenerate tokenizer whose encode always returns the empty id list, so
no rejection-loop attempt can ever produce a block of 3 or more tokens. -/
def nullTok : Tokenizer :=
  { encode := fun _ => []
    decode := fun _ => "" }

/-- A sampler state right after warmup for block size 4 with empty pools:
ragged pools exist exactly for sizes 1, 2, 3. -/
def sampler0 : SamplerState :=
  ⟨4, [], [(1, []), (2, []), (3, [])]⟩

/-- A well-formed sampler state for charTok with block size 4 and stocked
pools. -/
def sampler1 : SamplerState :=
  ⟨4, ["QQQQ"], [(1, ["P"]), (2, ["PP"]), (3, ["PPP"])]⟩

/-- A long-context mooncake record: input + output = 4200 ≥ 4096. -/
def mcLong : MooncakeRecord := ⟨0, 4000, 200, []⟩

/-- A short mooncake record. -/
def mcShort : MooncakeRecord := ⟨1000, 10, 20, []⟩

/-- Concrete BurstGPT rows mirroring the two mooncake records. -/
def burstRows : List BurstRow :=
  [⟨0, 4000, 200, "API log"⟩, ⟨5, 10, 20, "Conversation log"⟩]

/-- Concrete Azure rows mirroring the two mooncake records. -/
def azureRows : List AzureRow :=
  [⟨0, 4000, 200⟩, ⟨7, 10, 20⟩]

/-- The dataset loaded from [mcLong, mcShort] with filter_long_context set. -/
def dmW : Dataset := ⟨2, [(4000, 200), (10, 20)], [0, 1000], 2000⟩

/-- The dataset loaded from burstRows with filter_long_context set. -/
def dbW : Dataset := ⟨2, [(4000, 200), (10, 20)], [0, 5000], 10000⟩

/-- The dataset loaded from azureRows with filter_long_context set. -/
def daW : Dataset := ⟨2, [(4000, 200), (10, 20)], [0, 7], 14⟩

/-! # Theorems -/

/-- Inversion of the common loader tail: a successfully built dataset holds
exactly the requests and timestamps it was given. -/
theorem mkDataset_inv {requests : List (Nat × Nat)} {timestamps : List Nat} {d : Dataset}
    (h : mkDataset requests timestamps = some d) :
    d.requests = requests ∧ d.timestamps = timestamps ∧ d.dataset_size = requests.length := by
  unfold mkDataset at h
  split at h
  · cases h
  · split at h
    · cases h
    · cases h
      exact ⟨rfl, rfl, rfl⟩

/-- Pointwise form of the mooncake row transform at prefill_only = false. -/
theorem mooncakeRow_eq (filter : Bool) (r : MooncakeRecord) :
    mooncakeRow false filter r
      = (fun p => if filter then p else rewrite_long_context p)
          (r.input_length, r.output_length) := by
  cases filter with
  | false =>
    by_cases hc : 4096 ≤ add64 r.input_length r.output_length <;>
      simp [mooncakeRow, rewrite_long_context, hc]
  | true => simp [mooncakeRow]

/-- Pointwise form of the BurstGPT row transform at prefill_only = false. -/
theorem burstPair_eq (filter : Bool) (r : BurstRow) :
    burstPair false filter r
      = (fun p => if filter then p else rewrite_long_context p)
          (r.input_length, r.output_length) := by
  cases filter with
  | false =>
    by_cases hc : 4096 ≤ add64 r.input_length r.output_length <;>
      simp [burstPair, rewrite_long_context, hc]
  | true => simp [burstPair]

/-- Pointwise form of the Azure row transform at prefill_only = false. -/
theorem azurePair_eq (filter : Bool) (r : AzureRow) :
    azurePair false filter r
      = (fun p => if filter then p else rewrite_long_context p)
          (r.input_length, r.output_length) := by
  cases filter with
  | false =>
    by_cases hc : 4096 ≤ add64 r.input_length r.output_length <;>
      simp [azurePair, rewrite_long_context, hc]
  | true => simp [azurePair]

/-- C3 (amended).  With prefill_only unset, the filter_long_context option of
load_mooncake_jsonl, load_burstgpt_csv and load_azure_csv never drops a row:
when the flag is SET, every row is loaded unchanged (long-context rows
included); when it is UNSET, rows with input_length + output_length ≥ 4096
are rewritten to (4095 - output_length, output_length) and shorter rows are
loaded unchanged. -/
theorem long_context_rows_kept (filter : Bool)
    (mrecs : List MooncakeRecord) (brows : List BurstRow) (arows : List AzureRow)
    (dm db da : Dataset)
    (hm : load_mooncake_jsonl mrecs false false filter id = some dm)
    (hb : load_burstgpt_csv brows false false filter id = some db)
    (ha : load_azure_csv arows false false filter id = some da) :
    dm.requests = (mrecs.map fun r => (r.input_length, r.output_length)).map
        (fun p => if filter then p else rewrite_long_context p) ∧
    dm.requests.length = mrecs.length ∧
    db.requests = ((brows.filter burstKeep).map fun r => (r.input_length, r.output_length)).map
        (fun p => if filter then p else rewrite_long_context p) ∧
    da.requests = (arows.map fun r => (r.input_length, r.output_length)).map
        (fun p => if filter then p else rewrite_long_context p) ∧
    da.requests.length = arows.length := by
  simp only [load_mooncake_jsonl, Bool.false_eq_true, if_false] at hm
  obtain ⟨hm1, -, -⟩ := mkDataset_inv hm
  have hmeq : mrecs.map (mooncakeRow false filter)
      = (mrecs.map fun r => (r.input_length, r.output_length)).map
          (fun p => if filter then p else rewrite_long_context p) := by
    rw [List.map_map]
    exact List.map_congr_left fun r _ => mooncakeRow_eq filter r
  simp only [load_burstgpt_csv, Bool.false_eq_true, if_false] at hb
  have hb2 : db.requests = (brows.filter burstKeep).map (burstPair false filter) := by
    split at hb
    · cases hb
    · exact (mkDataset_inv hb).1
  have hbeq : (brows.filter burstKeep).map (burstPair false filter)
      = ((brows.filter burstKeep).map fun r => (r.input_length, r.output_length)).map
          (fun p => if filter then p else rewrite_long_context p) := by
    rw [List.map_map]
    exact List.map_congr_left fun r _ => burstPair_eq filter r
  have ha2 : da.requests = arows.map (azurePair false filter) ∧
      da.requests.length = arows.length := by
    cases arows with
    | nil => cases ha
    | cons first rest =>
      simp only [load_azure_csv, Bool.false_eq_true, if_false] at ha
      have := (mkDataset_inv ha).1
      exact ⟨this, by rw [this, List.length_map]⟩
  have haeq : arows.map (azurePair false filter)
      = (arows.map fun r => (r.input_length, r.output_length)).map
          (fun p => if filter then p else rewrite_long_context p) := by
    rw [List.map_map]
    exact List.map_congr_left fun r _ => azurePair_eq filter r
  refine ⟨hm1.trans hmeq, ?_, hb2.trans hbeq, ha2.1.trans haeq, ha2.2⟩
  rw [hm1, List.length_map]

/-- C3 counterexample: with filter_long_context SET, a mooncake row whose
input+output sum is 4200 ≥ 4096 is NOT dropped: it is loaded unchanged as
(4000, 200) and the dataset size still counts it. -/
theorem filter_long_context_does_not_drop :
    (load_mooncake_jsonl [mcLong, mcShort] false false true id).map
        (fun d => (d.requests, d.dataset_size))
      = some ([(4000, 200), (10, 20)], 2) := by rfl

/-- C4: evaluation at the failing input.  load_mooncake_jsonl with
prefill_only set and filter_long_context unset loads the long-context record
(input 4000, output 100) as (3995, 100): its output_length is NOT forced to 1
(the prefill branch of the long-context rewrite pushes record.output_length).
load_burstgpt_csv on the analogous row forces output 1 as documented. -/
theorem prefill_only_not_forced_on_long_mooncake_rows :
    (load_mooncake_jsonl [⟨0, 4000, 100, []⟩, mcShort] false true false id).map
        (fun d => d.requests)
      = some [(3995, 100), (10, 1)] ∧
    (load_burstgpt_csv burstRows false true false id).map (fun d => d.requests)
      = some [(4000, 1), (10, 1)] := by
  exact ⟨rfl, rfl⟩

/-- Building the same requests in a permuted order leaves every other dataset
component unchanged. -/
theorem mkDataset_perm {req1 req2 : List (Nat × Nat)} {ts : List Nat} {d1 : Dataset}
    (hp : req1.Perm req2) (h1 : mkDataset req1 ts = some d1) :
    ∃ d2, mkDataset req2 ts = some d2 ∧ d1.timestamps = d2.timestamps ∧
      d1.round_time = d2.round_time ∧ d1.dataset_size = d2.dataset_size ∧
      d1.requests.Perm d2.requests := by
  have hlen : req1.length = req2.length := hp.length_eq
  unfold mkDataset at h1
  split at h1
  · cases h1
  · rename_i last hl
    split at h1
    · cases h1
    · rename_i hz
      cases h1
      refine ⟨⟨req2.length, req2, ts, add64 last (last / sub64 req2.length 1)⟩, ?_, rfl, ?_, ?_, ?_⟩
      · simp only [mkDataset, hl]
        rw [if_neg (by rw [← hlen]; exact hz)]
      · simp only [hlen]
      · exact hlen
      · exact hp

/-- C10: loading with shuffle = true permutes only the requests vector; the
timestamps, round_time and dataset_size agree exactly with the shuffle = false
load of the same data, for all three loaders. -/
theorem shuffle_only_permutes_requests
    (shuffleFn : List (Nat × Nat) → List (Nat × Nat))
    (hperm : ∀ l, (shuffleFn l).Perm l)
    (p f : Bool) (mrecs : List MooncakeRecord) (brows : List BurstRow)
    (arows : List AzureRow) :
    (∀ d, load_mooncake_jsonl mrecs true p f shuffleFn = some d →
      ∃ d2, load_mooncake_jsonl mrecs false p f shuffleFn = some d2 ∧
        d.timestamps = d2.timestamps ∧ d.round_time = d2.round_time ∧
        d.dataset_size = d2.dataset_size ∧ d.requests.Perm d2.requests) ∧
    (∀ d, load_burstgpt_csv brows true p f shuffleFn = some d →
      ∃ d2, load_burstgpt_csv brows false p f shuffleFn = some d2 ∧
        d.timestamps = d2.timestamps ∧ d.round_time = d2.round_time ∧
        d.dataset_size = d2.dataset_size ∧ d.requests.Perm d2.requests) ∧
    (∀ d, load_azure_csv arows true p f shuffleFn = some d →
      ∃ d2, load_azure_csv arows false p f shuffleFn = some d2 ∧
        d.timestamps = d2.timestamps ∧ d.round_time = d2.round_time ∧
        d.dataset_size = d2.dataset_size ∧ d.requests.Perm d2.requests) := by
  refine ⟨?_, ?_, ?_⟩
  · intro d hd
    simp only [load_mooncake_jsonl, Bool.false_eq_true, if_false, if_true] at hd ⊢
    exact mkDataset_perm (hperm _) hd
  · intro d hd
    simp only [load_burstgpt_csv, Bool.false_eq_true, if_false, if_true] at hd ⊢
    split at hd
    · cases hd
    · exact mkDataset_perm (hperm _) hd
  · intro d hd
    cases arows with
    | nil => cases hd
    | cons first rest =>
      simp only [load_azure_csv, Bool.false_eq_true, if_false, if_true] at hd ⊢
      exact mkDataset_perm (hperm _) hd

/-- C10 witness: reversal is a permutation, and the theorem applies to the
concrete traces. -/
theorem shuffle_only_permutes_requests_witness :
    (∀ l : List (Nat × Nat), (List.reverse l).Perm l) ∧
    ((∀ d, load_mooncake_jsonl [mcLong, mcShort] true false false List.reverse = some d →
      ∃ d2, load_mooncake_jsonl [mcLong, mcShort] false false false List.reverse = some d2 ∧
        d.timestamps = d2.timestamps ∧ d.round_time = d2.round_time ∧
        d.dataset_size = d2.dataset_size ∧ d.requests.Perm d2.requests) ∧
    (∀ d, load_burstgpt_csv burstRows true false false List.reverse = some d →
      ∃ d2, load_burstgpt_csv burstRows false false false List.reverse = some d2 ∧
        d.timestamps = d2.timestamps ∧ d.round_time = d2.round_time ∧
        d.dataset_size = d2.dataset_size ∧ d.requests.Perm d2.requests) ∧
    (∀ d, load_azure_csv azureRows true false false List.reverse = some d →
      ∃ d2, load_azure_csv azureRows false false false List.reverse = some d2 ∧
        d.timestamps = d2.timestamps ∧ d.round_time = d2.round_time ∧
        d.dataset_size = d2.dataset_size ∧ d.requests.Perm d2.requests)) :=
  ⟨fun l => l.reverse_perm,
   shuffle_only_permutes_requests List.reverse (fun l => l.reverse_perm)
     false false [mcLong, mcShort] burstRows azureRows⟩

/-- C3 witness: the amended statement evaluated on concrete traces with
filter_long_context set. -/
theorem long_context_rows_kept_witness :
    (load_mooncake_jsonl [mcLong, mcShort] false false true id = some dmW ∧
     load_burstgpt_csv burstRows false false true id = some dbW ∧
     load_azure_csv azureRows false false true id = some daW) ∧
    (dmW.requests = ([mcLong, mcShort].map fun r => (r.input_length, r.output_length)).map
        (fun p => if true then p else rewrite_long_context p) ∧
     dmW.requests.length = ([mcLong, mcShort] : List MooncakeRecord).length ∧
     dbW.requests = ((burstRows.filter burstKeep).map fun r => (r.input_length, r.output_length)).map
        (fun p => if true then p else rewrite_long_context p) ∧
     daW.requests = (azureRows.map fun r => (r.input_length, r.output_length)).map
        (fun p => if true then p else rewrite_long_context p) ∧
     daW.requests.length = azureRows.length) :=
  ⟨⟨rfl, rfl, rfl⟩,
   long_context_rows_kept true [mcLong, mcShort] burstRows azureRows dmW dbW daW rfl rfl rfl⟩

/-- The RETURNCODE left after all request tasks have stored their outcome: it
is -1 exactly when at least one request failed. -/
theorem final_return_code_eq (outcomes : List ReqOutcome) :
    final_return_code outcomes = if ReqOutcome.failed ∈ outcomes then -1 else 0 := by
  have go : ∀ (l : List ReqOutcome) (a : Int),
      l.foldl (fun acc o => match o with
        | ReqOutcome.failed => -1 | ReqOutcome.ok => acc) a
        = if ReqOutcome.failed ∈ l then -1 else a := by
    intro l
    induction l with
    | nil => intro a; simp
    | cons x xs ih =>
      intro a
      cases x with
      | ok => simp [ih]
      | failed => simp [ih]
  exact go outcomes 0

/-- C2 (amended).  Only the replay-mode loop
(spawn_request_loop_with_timestamp) ties the join result to request failures:
its handle resolves to an error exactly when at least one request failed.  The
synthetic-mode loop (spawn_request_loop) has no RETURNCODE: its handle
resolves to Ok(()) even when requests failed. -/
theorem exit_code_vs_failures (outcomes : List ReqOutcome) :
    (replay_join_result outcomes = Except.ok () ↔ ReqOutcome.failed ∉ outcomes) ∧
    synth_join_result outcomes = Except.ok () := by
  constructor
  · by_cases hmem : ReqOutcome.failed ∈ outcomes <;>
      simp [replay_join_result, final_return_code_eq, hmem]
  · rfl

/-- C2 counterexample: a synthetic-mode run with one failed request still
resolves to Ok(()) (exit code 0), contradicting the claim for
spawn_request_loop. -/
theorem synth_mode_ignores_failures :
    ReqOutcome.failed ∈ [ReqOutcome.failed] ∧
    synth_join_result [ReqOutcome.failed] = Except.ok () :=
  ⟨List.mem_singleton.2 rfl, rfl⟩

/-- The nearest-even rounding lies between the floor and the ceiling of
P / 2^k. -/
theorem rne_bounds (P k : Nat) : P / 2 ^ k ≤ rne P k ∧ rne P k ≤ P / 2 ^ k + 1 := by
  unfold rne
  split
  · omega
  · split
    · omega
    · split <;> omega

/-- bitLenAux computes the bit length of any n below its fuel bound. -/
theorem bitLenAux_spec :
    ∀ fuel n, 1 ≤ n → n < 2 ^ fuel →
      2 ^ (bitLenAux fuel n - 1) ≤ n ∧ n < 2 ^ bitLenAux fuel n := by
  intro fuel
  induction fuel with
  | zero =>
    intro n h1 h2
    rw [pow_zero] at h2
    omega
  | succ fu ih =>
    intro n h1 h2
    unfold bitLenAux
    rw [if_neg (by omega)]
    by_cases hn1 : n = 1
    · subst hn1
      have hz : bitLenAux fu (1 / 2) = 0 := by
        norm_num
        cases fu with
        | zero => rfl
        | succ fu2 => simp [bitLenAux]
      rw [hz]
      norm_num
    · have hh1 : 1 ≤ n / 2 := by omega
      have hh2 : n / 2 < 2 ^ fu := by
        have hp : (2:Nat) ^ (fu + 1) = 2 ^ fu * 2 := pow_succ 2 fu
        omega
      obtain ⟨hlo, hhi⟩ := ih (n / 2) hh1 hh2
      constructor
      · rcases Nat.eq_zero_or_pos (bitLenAux fu (n / 2)) with hb | hb
        · rw [hb]
          simpa using h1
        · have hshift : bitLenAux fu (n / 2) + 1 - 1
              = bitLenAux fu (n / 2) - 1 + 1 := by omega
          rw [hshift, pow_succ]
          omega
      · rw [pow_succ]
        omega

/-- Specification of bitLen on the numbers of this development. -/
theorem bitLen_spec {n : Nat} (h1 : 1 ≤ n) (h2 : n < 2 ^ 128) :
    2 ^ (bitLen n - 1) ≤ n ∧ n < 2 ^ bitLen n :=
  bitLenAux_spec 128 n h1 h2

/-- On outputs up to 2^50 the f64 computation agrees with the exact
floor(0.4 * o) = 2*o/5: the combined error (the 2^-54 relative excess of
fl(0.4) over 2/5 plus half an ulp of product rounding) stays below the 1/5
gap that separates 2*o/5 from the neighbouring integers. -/
theorem f64Mul04AsU64_exact {o : Nat} (h2 : 2 ≤ o) (hB : o ≤ 2 ^ 50) :
    f64Mul04AsU64 o = 2 * o / 5 := by
  have ho53 : o < 2 ^ 53 := lt_of_le_of_lt hB (by norm_num)
  have hMs : f64OfU64 o = (o, 0) := by
    unfold f64OfU64
    rw [if_pos ho53]
  unfold f64Mul04AsU64
  rw [hMs]
  show min (f64ProdVal o 0) (2 ^ 64 - 1) = 2 * o / 5
  unfold f64ProdVal
  have hc5 : 5 * FL04_SIG = 2 ^ 55 + 2 := by norm_num [FL04_SIG]
  have hP53 : ¬ o * FL04_SIG < 2 ^ 53 := by
    push_neg
    calc (2:Nat) ^ 53 ≤ 2 * FL04_SIG := by norm_num [FL04_SIG]
    _ ≤ o * FL04_SIG := Nat.mul_le_mul_right FL04_SIG h2
  rw [if_neg hP53]
  simp only [Nat.zero_add]
  set P := o * FL04_SIG with hPdef
  have hPpos : 1 ≤ P := by omega
  have hPhi : P < 2 ^ 103 := by
    calc P ≤ 2 ^ 50 * FL04_SIG := Nat.mul_le_mul_right FL04_SIG hB
    _ < 2 ^ 103 := by norm_num [FL04_SIG]
  obtain ⟨hlow, hhigh⟩ := bitLen_spec hPpos (lt_trans hPhi (by norm_num))
  set L := bitLen P with hLdef
  have hL54 : 54 ≤ L := by
    by_contra hcon
    push_neg at hcon
    have hsmall : P < 2 ^ 53 := by
      have hmono : (2:Nat) ^ L ≤ 2 ^ 53 := by
        apply Nat.pow_le_pow_right (by norm_num)
        omega
      omega
    exact hP53 hsmall
  have hL103 : L ≤ 103 := by
    by_contra hcon
    push_neg at hcon
    have hmono : (2:Nat) ^ 103 ≤ 2 ^ (L - 1) := by
      apply Nat.pow_le_pow_right (by norm_num)
      omega
    omega
  set k := L - 53 with hkdef
  have hk1 : 1 ≤ k := by omega
  have hk50 : k ≤ 50 := by omega
  have hpow1 : (2:Nat) ^ (L - 1) = 2 ^ k * 2 ^ 52 := by
    rw [← pow_add]
    congr 1
    omega
  have hpow3 : (2:Nat) ^ (54 - k) * 2 ^ k = 2 ^ 54 := by
    rw [← pow_add]
    congr 1
    omega
  have h5P : 5 * P = 2 * o * 2 ^ 54 + 2 * o := by
    rw [hPdef]
    calc 5 * (o * FL04_SIG) = o * (5 * FL04_SIG) := by ring
    _ = o * (2 ^ 55 + 2) := by rw [hc5]
    _ = 2 * o * 2 ^ 54 + 2 * o := by
      rw [show (2:Nat) ^ 55 = 2 * 2 ^ 54 by norm_num]
      ring
  obtain ⟨hMge, hMle⟩ := rne_bounds P k
  set M := rne P k with hMdef
  set T := 2 * o / 5 with hTdef
  have hTmod : 5 * T + 2 * o % 5 = 2 * o := Nat.div_add_mod (2 * o) 5
  have hmod5 : 2 * o % 5 < 5 := Nat.mod_lt _ (by norm_num)
  have hlower : T * 2 ^ 54 ≤ P := by
    have h5 : 5 * (T * 2 ^ 54) ≤ 5 * P := by
      rw [h5P]
      calc 5 * (T * 2 ^ 54) = 5 * T * 2 ^ 54 := by ring
      _ ≤ 2 * o * 2 ^ 54 := Nat.mul_le_mul_right _ (by omega)
      _ ≤ 2 * o * 2 ^ 54 + 2 * o := Nat.le_add_right _ _
    omega
  have hTM : T * 2 ^ 54 ≤ M * 2 ^ k := by
    calc T * 2 ^ 54 = T * 2 ^ (54 - k) * 2 ^ k := by rw [mul_assoc, hpow3]
    _ ≤ P / 2 ^ k * 2 ^ k := by
      apply Nat.mul_le_mul_right
      rw [Nat.le_div_iff_mul_le (pow_pos (by norm_num) k)]
      calc T * 2 ^ (54 - k) * 2 ^ k = T * 2 ^ 54 := by rw [mul_assoc, hpow3]
      _ ≤ P := hlower
    _ ≤ M * 2 ^ k := Nat.mul_le_mul_right _ hMge
  have hfin_lo : T ≤ M * 2 ^ k / 2 ^ 54 := by
    rw [Nat.le_div_iff_mul_le (pow_pos (by norm_num) 54)]
    exact hTM
  have h2ko : 2 ^ k < 2 * o := by
    have hPo : P < o * 2 ^ 53 := by
      rw [hPdef]
      exact mul_lt_mul_of_pos_left (by norm_num [FL04_SIG]) (by omega)
    have hk52 : 2 ^ k * 2 ^ 52 ≤ P := by
      rw [← hpow1]
      exact hlow
    have ho53b : o * 2 ^ 53 = 2 * o * 2 ^ 52 := by
      rw [show (2:Nat) ^ 53 = 2 * 2 ^ 52 by norm_num]
      ring
    have hlt : 2 ^ k * 2 ^ 52 < 2 * o * 2 ^ 52 := by omega
    exact lt_of_mul_lt_mul_right hlt (Nat.zero_le _)
  have hupper5 : 2 * o + 5 * 2 ^ k < 2 ^ 54 := by omega
  have hupperP : P + 2 ^ k < (T + 1) * 2 ^ 54 := by
    have h5 : 5 * (P + 2 ^ k) < 5 * ((T + 1) * 2 ^ 54) := by
      have hlhs : 5 * (P + 2 ^ k) = 5 * P + 5 * 2 ^ k := by ring
      have hrhs : 5 * ((T + 1) * 2 ^ 54) = 5 * T * 2 ^ 54 + 5 * 2 ^ 54 := by ring
      rw [hlhs, hrhs, h5P]
      have h5T : 5 * T = 2 * o - 2 * o % 5 := by omega
      rw [h5T]
      omega
    omega
  have hfin_hi : M * 2 ^ k / 2 ^ 54 < T + 1 := by
    rw [Nat.div_lt_iff_lt_mul (pow_pos (by norm_num) 54)]
    have hfloor : P / 2 ^ k * 2 ^ k ≤ P := Nat.div_mul_le_self P (2 ^ k)
    have hM2 : M * 2 ^ k ≤ P + 2 ^ k := by
      calc M * 2 ^ k ≤ (P / 2 ^ k + 1) * 2 ^ k := Nat.mul_le_mul_right _ hMle
      _ = P / 2 ^ k * 2 ^ k + 2 ^ k := by ring
      _ ≤ P + 2 ^ k := by omega
    exact lt_of_le_of_lt hM2 hupperP
  have hraw : M * 2 ^ k / 2 ^ 54 = T := by omega
  rw [hraw]
  have hT64 : T ≤ 2 ^ 64 - 1 := by
    have hTo : T ≤ 2 * o := Nat.div_le_self (2 * o) 5
    omega
  exact min_eq_left hT64

/-- On any output up to 2^50 the timeout equals the exact
max(180, floor(0.4 * o)). -/
theorem timeout_secs_exact {o : Nat} (hB : o ≤ 2 ^ 50) :
    timeout_secs o = max 180 (2 * o / 5) := by
  rcases Nat.lt_or_ge o 2 with h | h
  · interval_cases o <;> decide
  · unfold timeout_secs
    rw [f64Mul04AsU64_exact h hB]

/-- C5 (amended): every request dispatched by either loop carries the HTTP
timeout max(180, (output_length as f64 * 0.4) as u64) seconds, which is never
below 180 (hence never below 15) seconds; and for every output length up to
2^50 — far beyond any real token count — this equals the claimed
max(180, floor(0.4 * output_length)).  For astronomically large outputs the
f64 arithmetic exceeds the exact floor (see the counterexample), so the
claimed equality does not hold unconditionally. -/
theorem request_timeout_formula (trace : List TraceEntry) (stop1 stop2 : Nat) :
    ∀ r ∈ dispatch_synth trace stop1 ++ dispatch_replay trace stop2,
      r.timeout = max 180 (f64Mul04AsU64 r.output_length) ∧
      15 ≤ r.timeout ∧
      (r.output_length ≤ 2 ^ 50 → r.timeout = max 180 (2 * r.output_length / 5)) := by
  intro r hr
  have htim : r.timeout = timeout_secs r.output_length := by
    rcases List.mem_append.1 hr with h | h <;>
    · obtain ⟨ie, -, rfl⟩ := List.mem_map.1 h
      rfl
  refine ⟨htim, ?_, ?_⟩
  · rw [htim]
    exact le_trans (by norm_num) (le_max_left 180 (f64Mul04AsU64 r.output_length))
  · intro hB
    rw [htim, timeout_secs_exact hB]

set_option maxRecDepth 8192 in
/-- C5 counterexample: a dispatched request with output length 2^62 gets the
timeout 1844674407370955264 s from the f64 arithmetic, while
max(180, floor(0.4 * 2^62)) = 1844674407370955161: fl(0.4) exceeds 2/5 by
2^-54 relatively, which surfaces at large outputs, so the claimed equality
fails on this dispatched request. -/
theorem timeout_formula_counterexample :
    (dispatch_replay [⟨0, 5, 2 ^ 62⟩] 1).map (fun r => r.timeout)
        = [1844674407370955264] ∧
    max 180 (2 * 2 ^ 62 / 5) = 1844674407370955161 ∧
    (1844674407370955264 : Nat) ≠ 1844674407370955161 := by
  refine ⟨by decide, by norm_num, by norm_num⟩

/-- C5 witness: output length 1000 ≤ 2^50 gets timeout
400 = max(180, floor(0.4 * 1000)) ≥ 15. -/
theorem request_timeout_formula_witness :
    (⟨0, 5, 1000, 400⟩ : DispatchedRequest) ∈
        dispatch_synth [⟨0, 5, 1000⟩] 1 ++ dispatch_replay [⟨0, 5, 1000⟩] 1 ∧
    ((⟨0, 5, 1000, 400⟩ : DispatchedRequest).timeout
        = max 180 (f64Mul04AsU64 (⟨0, 5, 1000, 400⟩ : DispatchedRequest).output_length) ∧
     15 ≤ (⟨0, 5, 1000, 400⟩ : DispatchedRequest).timeout ∧
     ((⟨0, 5, 1000, 400⟩ : DispatchedRequest).output_length ≤ 2 ^ 50 →
        (⟨0, 5, 1000, 400⟩ : DispatchedRequest).timeout
          = max 180 (2 * (⟨0, 5, 1000, 400⟩ : DispatchedRequest).output_length / 5))) :=
  ⟨by decide,
   request_timeout_formula [⟨0, 5, 1000⟩] 1 1 ⟨0, 5, 1000, 400⟩ (by decide)⟩

/-- Every key of btInsert k v m is k or a key of m. -/
theorem btInsert_keys_subset (k v : String) (m : List (String × String)) :
    ∀ x ∈ (btInsert k v m).map Prod.fst, x = k ∨ x ∈ m.map Prod.fst := by
  induction m with
  | nil => intro x hx; simp [btInsert] at hx; exact Or.inl hx
  | cons kv2 rest ih =>
    intro x hx
    unfold btInsert at hx
    by_cases h1 : k < kv2.1
    · rw [if_pos h1] at hx
      simp only [List.map_cons, List.mem_cons] at hx
      rcases hx with h | h | h
      · exact Or.inl h
      · exact Or.inr (by simp [h])
      · exact Or.inr (by simp [h])
    · rw [if_neg h1] at hx
      by_cases h2 : k = kv2.1
      · rw [if_pos h2] at hx
        simp only [List.map_cons, List.mem_cons] at hx
        rcases hx with h | h
        · exact Or.inl h
        · exact Or.inr (by simp [h])
      · rw [if_neg h2] at hx
        simp only [List.map_cons, List.mem_cons] at hx
        rcases hx with h | h
        · exact Or.inr (by simp [h])
        · rcases ih x h with h3 | h3
          · exact Or.inl h3
          · exact Or.inr (by simp [h3])

/-- btInsert preserves the BTreeMap sorted-keys invariant. -/
theorem btInsert_keysSorted (k v : String) (m : List (String × String))
    (h : KeysSorted m) : KeysSorted (btInsert k v m) := by
  induction m with
  | nil => simp [btInsert, KeysSorted]
  | cons kv2 rest ih =>
    unfold KeysSorted at h
    simp only [List.map_cons, List.pairwise_cons] at h
    obtain ⟨hhead, hrest⟩ := h
    unfold btInsert KeysSorted
    by_cases h1 : k < kv2.1
    · rw [if_pos h1]
      simp only [List.map_cons, List.pairwise_cons]
      refine ⟨?_, hhead, hrest⟩
      intro y hy
      simp only [List.mem_cons] at hy
      rcases hy with rfl | hy
      · exact h1
      · exact lt_trans h1 (hhead y hy)
    · rw [if_neg h1]
      by_cases h2 : k = kv2.1
      · rw [if_pos h2]
        simp only [List.map_cons, List.pairwise_cons]
        exact ⟨fun y hy => h2 ▸ hhead y hy, hrest⟩
      · rw [if_neg h2]
        simp only [List.map_cons, List.pairwise_cons]
        refine ⟨?_, ih hrest⟩
        intro y hy
        rcases btInsert_keys_subset k v rest y hy with rfl | hy2
        · rcases lt_trichotomy y kv2.1 with h3 | h3 | h3
          · exact absurd h3 h1
          · exact absurd h3 h2
          · exact h3
        · exact hhead y hy2

/-- Processing one record writes its line and leaves the buffer flushed. -/
theorem report_step_flushed (w : WriterState) (m : List (String × String))
    (hw : w.buf = "") :
    report_step w m = ⟨w.file ++ (serializeMR m ++ "\n"), ""⟩ := by
  simp [report_step, hw]

/-- Generalized fold form of report_loop. -/
theorem report_loop_go (records : List (List (String × String))) :
    ∀ w : WriterState, w.buf = "" →
      (records.foldl report_step w).file = w.file ++ reportFileContent records ∧
      (records.foldl report_step w).buf = "" := by
  induction records with
  | nil =>
    intro w hw
    exact ⟨by simp [reportFileContent], hw⟩
  | cons r rs ih =>
    intro w hw
    rw [List.foldl_cons, report_step_flushed w r hw]
    obtain ⟨h1, h2⟩ := ih ⟨w.file ++ (serializeMR r ++ "\n"), ""⟩ rfl
    refine ⟨?_, h2⟩
    rw [h1]
    simp only [reportFileContent]
    rw [String.append_assoc, String.append_assoc]

/-- C7: report_loop writes exactly one serialized record plus newline per
received record, in order; the buffered writer is flushed after every record;
an empty stream (channel closed before any record) yields an empty file and a
normal termination; and metrics maps built by BTreeMap insertion always have
their keys in ascending order, which is the order serializeMR emits them
in. -/
theorem report_loop_behavior (records : List (List (String × String))) :
    (report_loop records).file = reportFileContent records ∧
    (report_loop records).buf = "" ∧
    report_loop [] = ⟨"", ""⟩ ∧
    (∀ k v m, KeysSorted m → KeysSorted (btInsert k v m)) ∧
    (∀ inserts : List (String × String),
      KeysSorted (inserts.foldl (fun m kv => btInsert kv.1 kv.2 m) [])) := by
  obtain ⟨h1, h2⟩ := report_loop_go records ⟨"", ""⟩ rfl
  refine ⟨by simpa using h1, h2, rfl, btInsert_keysSorted, ?_⟩
  intro inserts
  have go : ∀ (l : List (String × String)) (m : List (String × String)), KeysSorted m →
      KeysSorted (l.foldl (fun m kv => btInsert kv.1 kv.2 m) m) := by
    intro l
    induction l with
    | nil => intro m hm; exact hm
    | cons kv rest ih =>
      intro m hm
      exact ih (btInsert kv.1 kv.2 m) (btInsert_keysSorted kv.1 kv.2 m hm)
  exact go inserts [] (by simp [KeysSorted])

/-- Looking up the key just inserted yields the inserted value. -/
theorem mr_lookup_btInsert_self (k v : String) (m : List (String × String)) :
    mr_lookup (btInsert k v m) k = some v := by
  induction m with
  | nil => simp [btInsert, mr_lookup]
  | cons kv2 rest ih =>
    unfold btInsert
    by_cases h1 : k < kv2.1
    · rw [if_pos h1]; simp [mr_lookup]
    · rw [if_neg h1]
      by_cases h2 : k = kv2.1
      · rw [if_pos h2]; simp [mr_lookup]
      · rw [if_neg h2]
        have hne : (kv2.1 == k) = false := beq_eq_false_iff_ne.2 fun he => h2 he.symm
        unfold mr_lookup
        rw [List.find?_cons_of_neg _ (by simp [hne])]
        exact ih

/-- Inserting under a different key does not change a lookup. -/
theorem mr_lookup_btInsert_ne (k v k2 : String) (m : List (String × String))
    (h : k2 ≠ k) : mr_lookup (btInsert k v m) k2 = mr_lookup m k2 := by
  have hne : (k == k2) = false := beq_eq_false_iff_ne.2 fun he => h he.symm
  induction m with
  | nil =>
    unfold btInsert mr_lookup
    rw [List.find?_cons_of_neg _ (by simp [hne])]
  | cons kv2 rest ih =>
    unfold btInsert
    by_cases h1 : k < kv2.1
    · rw [if_pos h1]
      unfold mr_lookup
      rw [List.find?_cons_of_neg _ (by simp [hne])]
    · rw [if_neg h1]
      by_cases h2 : k = kv2.1
      · rw [if_pos h2]
        unfold mr_lookup
        rw [List.find?_cons_of_neg _ (by simp [hne]),
            List.find?_cons_of_neg _ (by simp [← h2, hne])]
      · rw [if_neg h2]
        unfold mr_lookup
        by_cases h3 : (kv2.1 == k2) = true
        · simp [List.find?, h3]
        · rw [Bool.not_eq_true] at h3
          simp only [List.find?, h3]
          exact ih

/-- The header fold of parse_response: a completed fold never touched the
"status" entry (none of the inserted keys is "status"). -/
theorem parse_fold_status (resp : HttpResponse) (keys : List (String × String))
    (hkeys : ∀ kv ∈ keys, kv.1 ≠ "status") :
    ∀ m0 m, keys.foldlM (fun m kv => do
        let v ← require_header resp kv.2
        pure (btInsert kv.1 v m)) m0 = Except.ok m →
      mr_lookup m "status" = mr_lookup m0 "status" := by
  induction keys with
  | nil =>
    intro m0 m h
    cases h
    rfl
  | cons kv rest ih =>
    intro m0 m hfold
    rw [List.foldlM_cons] at hfold
    cases hreq : require_header resp kv.2 with
    | error e => rw [hreq] at hfold; cases hfold
    | ok v =>
      rw [hreq] at hfold
      have step := ih (fun kv2 h2 => hkeys kv2 (List.mem_cons_of_mem kv h2))
        (btInsert kv.1 v m0) m hfold
      rw [step]
      exact mr_lookup_btInsert_ne kv.1 v "status" m0
        (fun he => hkeys kv (List.mem_cons_self kv rest) he.symm)

/-- A completed header fold implies every required header was present and
decodable. -/
theorem parse_fold_requires (resp : HttpResponse) (keys : List (String × String)) :
    ∀ m0 m, keys.foldlM (fun m kv => do
        let v ← require_header resp kv.2
        pure (btInsert kv.1 v m)) m0 = Except.ok m →
      ∀ kv ∈ keys, ∃ v, require_header resp kv.2 = Except.ok v := by
  induction keys with
  | nil =>
    intro m0 m h kv hkv
    cases hkv
  | cons kv rest ih =>
    intro m0 m hfold kv2 hkv2
    rw [List.foldlM_cons] at hfold
    cases hreq : require_header resp kv.2 with
    | error e => rw [hreq] at hfold; cases hfold
    | ok v =>
      rw [hreq] at hfold
      rcases List.mem_cons.1 hkv2 with rfl | h2
      · exact ⟨v, hreq⟩
      · exact ih (btInsert kv.1 v m0) m hfold kv2 h2

/-- C6 (amended).  parse_response of the Distserve and vLLM protocols writes
the status key into the record in every case in which it returns; on a
non-success status the record is exactly [("status", code)]; but on a success
status every listed x-* timing header is MANDATORY: if any one is absent or
not decodable, parse_response panics on the unwrap (modelled Except.error)
instead of leaving the key absent. -/
theorem parse_response_status_and_panic (resp : HttpResponse) :
    (∀ m, parse_response_distserve resp = Except.ok m →
        mr_lookup m "status" = some (toString resp.status)) ∧
    (∀ m, parse_response_vllm resp = Except.ok m →
        mr_lookup m "status" = some (toString resp.status)) ∧
    (is_success resp.status = false →
        parse_response_distserve resp = Except.ok [("status", toString resp.status)] ∧
        parse_response_vllm resp = Except.ok [("status", toString resp.status)]) ∧
    (∀ kv ∈ distserve_header_keys, require_header resp kv.2 = Except.error () →
        is_success resp.status = true →
        parse_response_distserve resp = Except.error ()) ∧
    (∀ kv ∈ vllm_header_keys, require_header resp kv.2 = Except.error () →
        is_success resp.status = true →
        parse_response_vllm resp = Except.error ()) := by
  have hgen : ∀ keys : List (String × String), (∀ kv ∈ keys, kv.1 ≠ "status") →
      (∀ m, parse_response_with keys resp = Except.ok m →
          mr_lookup m "status" = some (toString resp.status)) ∧
      (is_success resp.status = false →
          parse_response_with keys resp = Except.ok [("status", toString resp.status)]) ∧
      (∀ kv ∈ keys, require_header resp kv.2 = Except.error () →
          is_success resp.status = true →
          parse_response_with keys resp = Except.error ()) := by
    intro keys hkeys
    refine ⟨?_, ?_, ?_⟩
    · intro m hm
      unfold parse_response_with at hm
      by_cases hsucc : is_success resp.status = true
      · rw [if_pos hsucc] at hm
        rw [parse_fold_status resp keys hkeys _ m hm]
        exact mr_lookup_btInsert_self "status" (toString resp.status) []
      · rw [Bool.not_eq_true] at hsucc
        rw [hsucc] at hm
        simp only [Bool.false_eq_true, if_false] at hm
        cases hm
        exact mr_lookup_btInsert_self "status" (toString resp.status) []
    · intro hsucc
      unfold parse_response_with
      rw [hsucc]
      simp only [Bool.false_eq_true, if_false]
      rfl
    · intro kv hkv hreq hsucc
      cases hres : parse_response_with keys resp with
      | error e => rfl
      | ok m =>
        exfalso
        unfold parse_response_with at hres
        rw [if_pos hsucc] at hres
        obtain ⟨v, hv⟩ := parse_fold_requires resp keys _ m hres kv hkv
        rw [hv] at hreq
        cases hreq
  have hd := hgen distserve_header_keys (by decide)
  have hv := hgen vllm_header_keys (by decide)
  exact ⟨hd.1, hv.1,
    fun hns => ⟨(hd.2.1) hns, (hv.2.1) hns⟩,
    fun kv hkv hreq hs => hd.2.2 kv hkv hreq hs,
    fun kv hkv hreq hs => hv.2.2 kv hkv hreq hs⟩

/-- C6 counterexample: a success (200) response with no headers makes both
parse_response implementations panic on the first header unwrap, refuting
"leaves the corresponding key absent without aborting". -/
theorem parse_response_panics_on_missing_header :
    is_success 200 = true ∧
    parse_response_distserve ⟨200, []⟩ = Except.error () ∧
    parse_response_vllm ⟨200, []⟩ = Except.error () :=
  ⟨rfl, rfl, rfl⟩

/-- C6 witness: on a non-success response the record is exactly the status
entry, and on a success response with a missing first header the function
aborts; obtained by applying the theorem at concrete responses. -/
theorem parse_response_status_and_panic_witness :
    parse_response_distserve ⟨404, []⟩ = Except.ok [("status", toString (404 : Nat))] ∧
    parse_response_vllm ⟨404, []⟩ = Except.ok [("status", toString (404 : Nat))] ∧
    parse_response_distserve ⟨200, [("x-queue-time", some "7")]⟩ = Except.error () :=
  ⟨((parse_response_status_and_panic ⟨404, []⟩).2.2.1 rfl).1,
   ((parse_response_status_and_panic ⟨404, []⟩).2.2.1 rfl).2,
   (parse_response_status_and_panic ⟨200, [("x-queue-time", some "7")]⟩).2.2.2.1
     ("first_token_time", "x-first-token-time") (by decide) rfl rfl⟩

/-- Whatever the rejection loop returns passed its own length check. -/
theorem generate_loop_length {tok : Tokenizer} {splitter : Splitter} {n : Nat}
    {draws : Nat → List Nat} :
    ∀ fuel k s, generate_loop tok splitter n draws fuel k = some s →
      (tok.encode s).length = n := by
  intro fuel
  induction fuel with
  | zero => intro k s h; cases h
  | succ fu ih =>
    intro k s h
    unfold generate_loop at h
    by_cases hc : (tok.encode (generate_attempt tok splitter n (draws k))).length = n
    · rw [if_pos hc] at h
      cases h
      exact hc
    · rw [if_neg hc] at h
      exact ih (k + 1) s h

/-- The rejection loop terminates within fuel iterations exactly when one of
those draws round-trips to n tokens; equivalently, no iteration cap cuts it
short. -/
theorem generate_loop_isSome {tok : Tokenizer} {splitter : Splitter} {n : Nat}
    {draws : Nat → List Nat} :
    ∀ fuel k, (generate_loop tok splitter n draws fuel k).isSome = true ↔
      ∃ j, j < fuel ∧
        (tok.encode (generate_attempt tok splitter n (draws (k + j)))).length = n := by
  intro fuel
  induction fuel with
  | zero =>
    intro k
    simp [generate_loop]
  | succ fu ih =>
    intro k
    unfold generate_loop
    by_cases hc : (tok.encode (generate_attempt tok splitter n (draws k))).length = n
    · rw [if_pos hc]
      simp only [Option.isSome_some, true_iff]
      exact ⟨0, Nat.succ_pos fu, by simpa using hc⟩
    · rw [if_neg hc, ih (k + 1)]
      constructor
      · rintro ⟨j, hj, hp⟩
        exact ⟨j + 1, by omega, by rwa [show k + (j + 1) = k + 1 + j by omega]⟩
      · rintro ⟨j, hj, hp⟩
        cases j with
        | zero => exact absurd (by simpa using hp) hc
        | succ j2 =>
          exact ⟨j2, by omega, by rwa [show k + 1 + j2 = k + (j2 + 1) by omega]⟩

/-- C9 (amended).  The rejection loop of generate_block (n ≥ 3) has NO safety
cap: for any fuel bound, the call returns within that bound exactly when some
draw among the first fuel draws round-trips to exactly n tokens.  In
particular no fixed number of iterations guarantees termination. -/
theorem generate_block_termination (tok : Tokenizer) (splitter : Splitter)
    (draws : Nat → List Nat) (fuel m : Nat) :
    (generate_block tok splitter (m + 3) draws fuel).isSome = true ↔
      ∃ j, j < fuel ∧
        (tok.encode (generate_attempt tok splitter (m + 3) (draws j))).length = m + 3 := by
  show (generate_loop tok splitter (m + 3) draws fuel 0).isSome = true ↔ _
  rw [generate_loop_isSome fuel 0]
  simp

/-- C9 counterexample: with a tokenizer whose encode never returns 3 ids, the
generate_block rejection loop never terminates — there is no bound (safety
cap) within which it completes, refuting bounded termination for every
tokenizer. -/
theorem generate_block_unbounded_on_nullTok :
    ¬ ∃ fuel, (generate_block nullTok (Splitter.pad "P") 3 (fun _ => []) fuel).isSome = true := by
  rintro ⟨fuel, h⟩
  have h2 : (generate_loop nullTok (Splitter.pad "P") 3 (fun _ => []) fuel 0).isSome = true := h
  obtain ⟨j, -, hp⟩ := (generate_loop_isSome fuel 0).1 h2
  simp [nullTok] at hp

/-- The head of a list is a member. -/
theorem mem_of_head_some {α : Type} {l : List α} {a : α} (h : l.head? = some a) : a ∈ l := by
  cases l with
  | nil => cases h
  | cons x xs =>
    rw [List.head?_cons] at h
    exact (Option.some.inj h) ▸ List.mem_cons_self x xs

/-- A ragged-pool lookup hit comes from an entry of the pool map keyed by the
looked-up size. -/
theorem ragged_get_mem {m : List (Nat × List String)} {n : Nat} {pool : List String}
    (h : ragged_get m n = some pool) : (n, pool) ∈ m := by
  unfold ragged_get at h
  cases hf : m.find? (fun p => p.1 == n) with
  | none => rw [hf] at h; cases h
  | some p =>
    rw [hf] at h
    cases h
    have hmem := List.mem_of_find?_eq_some hf
    have hp := List.find?_some hf
    have hpn : p = (n, p.2) := by
      obtain ⟨p1, p2⟩ := p
      simp only [beq_iff_eq] at hp
      simp [hp]
    rw [← hpn]
    exact hmem

/-- C1 (amended).  For every n with 1 ≤ n ≤ B, any string gen_string(n)
returns re-encodes to exactly n tokens, given the sampler-pool invariant and
that the splitter delimiters themselves re-encode to one token each (so the
1- and 2-token blocks built purely from splitters are exact).  gen_string(0)
is excluded: it panics (see the counterexample) instead of returning the
empty string. -/
theorem gen_string_token_exact (st : SamplerState) (tok : Tokenizer) (splitter : Splitter)
    (draws : Nat → List Nat) (fuel n : Nat) (s : String)
    (hwf : SamplerWF st tok)
    (h1 : (tok.encode splitter.one).length = 1)
    (h2 : (tok.encode splitter.double).length = 2)
    (hn1 : 1 ≤ n) (hnB : n ≤ st.block_size)
    (hres : gen_string st tok splitter draws fuel n = some s) :
    (tok.encode s).length = n := by
  obtain ⟨hwp, hwr, -⟩ := hwf
  unfold gen_string at hres
  cases hpri : (if st.block_size = n then st.primary.head? else none) with
  | some sample =>
    simp only [hpri] at hres
    rw [← Option.some.inj hres]
    by_cases hbs : st.block_size = n
    · rw [if_pos hbs] at hpri
      exact hbs ▸ hwp sample (mem_of_head_some hpri)
    · rw [if_neg hbs] at hpri
      cases hpri
  | none =>
    simp only [hpri] at hres
    cases hrag : ragged_get st.ragged n with
    | none =>
      simp only [hrag] at hres
      cases hres
    | some pool =>
      simp only [hrag] at hres
      cases hph : pool.head? with
      | some sample =>
        simp only [hph] at hres
        rw [← Option.some.inj hres]
        exact hwr (n, pool) (ragged_get_mem hrag) sample (mem_of_head_some hph)
      | none =>
        simp only [hph] at hres
        match n, hn1, hres with
        | 1, _, hres =>
          rw [← Option.some.inj hres]
          exact h1
        | 2, _, hres =>
          rw [← Option.some.inj hres]
          exact h2
        | (m + 3), _, hres =>
          exact generate_loop_length fuel 0 s hres

/-- C1 counterexample: gen_string(0) panics ("No cache for block size 0") —
there is no ragged pool for size 0 — rather than returning the empty
string. -/
theorem gen_string_zero_panics :
    gen_string sampler0 charTok (Splitter.pad "P") (fun _ => []) 5 0 = none ∧
    gen_string sampler0 charTok (Splitter.pad "P") (fun _ => []) 5 0 ≠ some "" := by
  refine ⟨rfl, ?_⟩
  intro hcon
  rw [show gen_string sampler0 charTok (Splitter.pad "P") (fun _ => []) 5 0 = none from rfl]
    at hcon
  cases hcon

/-- C1 witness: a concrete well-formed sampler over the one-character-per-
token tokenizer; gen_string(3) serves "PPP" from the ragged pool and it
re-encodes to 3 tokens. -/
theorem gen_string_token_exact_witness :
    SamplerWF sampler1 charTok ∧
    (charTok.encode (Splitter.pad "P").one).length = 1 ∧
    (charTok.encode (Splitter.pad "P").double).length = 2 ∧
    gen_string sampler1 charTok (Splitter.pad "P") (fun _ => []) 5 3 = some "PPP" ∧
    (charTok.encode "PPP").length = 3 := by
  have hwf : SamplerWF sampler1 charTok := by unfold SamplerWF; decide
  have h1 : (charTok.encode (Splitter.pad "P").one).length = 1 := by decide
  have h2 : (charTok.encode (Splitter.pad "P").double).length = 2 := by decide
  exact ⟨hwf, h1, h2, rfl,
    gen_string_token_exact sampler1 charTok (Splitter.pad "P") (fun _ => []) 5 3 "PPP"
      hwf h1 h2 (by decide) (by decide) rfl⟩

/-- The invariant holds at the freshly constructed lock. -/
theorem rwInv_init (n : Nat) : RwInv (rwInit n) := by
  refine ⟨?_, ?_, ?_⟩ <;> simp [rwInit, Multiset.count_replicate]

/-- The invariant is preserved by every atomic step of the lock. -/
theorem rwInv_step {s1 s2 : RwSys} (h : RwStep s1 s2) (hinv : RwInv s1) : RwInv s2 := by
  obtain ⟨h1, h2, h3⟩ := hinv
  cases h with
  | startRead w rest =>
    refine ⟨?_, ?_, ?_⟩ <;> simp_all [Multiset.count_cons]
  | startWrite w rest =>
    refine ⟨?_, ?_, ?_⟩ <;> simp_all [Multiset.count_cons]
  | readAcquire w rest hwaiter hwriter =>
    refine ⟨?_, ?_, ?_⟩ <;> simp_all [Multiset.count_cons]
  | readRelease w rest =>
    refine ⟨?_, ?_, ?_⟩ <;> simp_all [Multiset.count_cons]
  | waiterAcquire w rest hwaiter =>
    refine ⟨?_, ?_, ?_⟩ <;> simp_all [Multiset.count_cons]
  | writeAcquire rest =>
    refine ⟨?_, ?_, ?_⟩ <;> simp_all [Multiset.count_cons]
  | writeRelease w rest =>
    by_cases hw : w.writer = true
    · have hr0 : w.readers = 0 := h3 hw
      refine ⟨?_, ?_, ?_⟩
      · have h1b : w.readers
            = Multiset.count ThreadPhase.reading (ThreadPhase.writing ::ₘ rest) := h1
        show (0 : Nat) = Multiset.count ThreadPhase.reading (ThreadPhase.idle ::ₘ rest)
        simp [Multiset.count_cons] at h1b ⊢
        omega
      · have h2b : Multiset.count ThreadPhase.writing (ThreadPhase.writing ::ₘ rest)
            = if w.writer = true then 1 else 0 := h2
        rw [hw] at h2b
        simp [Multiset.count_cons] at h2b
        show Multiset.count ThreadPhase.writing (ThreadPhase.idle ::ₘ rest)
            = if (false : Bool) = true then 1 else 0
        simp [Multiset.count_cons, h2b]
      · intro hcon
        cases hcon
    · exfalso
      rw [if_neg hw] at h2
      simp [Multiset.count_cons] at h2

/-- Every reachable lock state satisfies the invariant. -/
theorem rwReachable_inv (n : Nat) (sys : RwSys) (h : RwReachable n sys) : RwInv sys := by
  induction h with
  | refl => exact rwInv_init n
  | tail hsteps hstep ih => exact rwInv_step hstep ih

/-- C8: in every reachable state of the SpinRwLock protocol, at most one
thread holds the write lock; and any step that admits a reader (the
successful CAS incrementing the reader count) can only fire from a state
where neither the writer-active bit nor the writer-waiting bit is set. -/
theorem spin_rwlock_safety (n : Nat) (sys : RwSys) (h : RwReachable n sys) :
    Multiset.count ThreadPhase.writing sys.threads ≤ 1 ∧
    ∀ sys2, RwStep sys sys2 →
      Multiset.count ThreadPhase.reading sys.threads
        < Multiset.count ThreadPhase.reading sys2.threads →
      sys.word.waiter = false ∧ sys.word.writer = false := by
  have hinv := rwReachable_inv n sys h
  constructor
  · rw [hinv.2.1]
    by_cases hw : sys.word.writer = true <;> simp [hw]
  · intro sys2 hstep hlt
    cases hstep with
    | startRead w rest =>
      exfalso
      simp [Multiset.count_cons] at hlt
    | startWrite w rest =>
      exfalso
      simp [Multiset.count_cons] at hlt
    | readAcquire w rest hwaiter hwriter =>
      exact ⟨hwaiter, hwriter⟩
    | readRelease w rest =>
      exfalso
      simp [Multiset.count_cons] at hlt
    | waiterAcquire w rest hwaiter =>
      exfalso
      simp [Multiset.count_cons] at hlt
    | writeAcquire rest =>
      exfalso
      simp [Multiset.count_cons] at hlt
    | writeRelease w rest =>
      exfalso
      simp [Multiset.count_cons] at hlt

/-- C8 witness: the theorem applied at the initial two-thread system, which
is reachable by the empty interleaving. -/
theorem spin_rwlock_safety_witness :
    Multiset.count ThreadPhase.writing (rwInit 2).threads ≤ 1 ∧
    ∀ sys2, RwStep (rwInit 2) sys2 →
      Multiset.count ThreadPhase.reading (rwInit 2).threads
        < Multiset.count ThreadPhase.reading sys2.threads →
      (rwInit 2).word.waiter = false ∧ (rwInit 2).word.writer = false :=
  spin_rwlock_safety 2 (rwInit 2) Relation.ReflTransGen.refl

end RequestSim
